import Mathlib

/-!
Verification of the TeachersHub AI service layer against its specification.

The development shallowly embeds the three pieces of reproducible logic of
the repository:

* the attendance command resolver `processAttendanceCommand` (the part of
  the TypeScript function that runs once the provider response is in hand:
  tool-call extraction, argument validation, the "ALL" sentinel
  short-circuit and the fuzzy name-matching loop);
* the error classifier `handleGeminiError`;
* the HTTP proxy route `handler` from `/api/gemini`.

JavaScript strings are modelled as Lean `String`; `toLowerCase` is modelled
character-wise by `lowerStr` and `String.prototype.includes` by
`strIncludes`, a contiguous-sublist test on the underlying character list.
JavaScript falsiness of the untrusted tool-call arguments is modelled
explicitly: a missing or empty-string `status` is falsy, a missing
`student_names` is falsy, while a present but empty array is truthy.
The network call to the provider is external and enters the model only as
data (the provider response, respectively an `Except` outcome for the
proxy route).
-/

/-- Character-wise lower-casing, modelling JavaScript `toLowerCase` on the
strings handled here. -/
def lowerStr (s : String) : String := ⟨s.data.map Char.toLower⟩

/-- `isPrefixB as bs = true` iff `as` is a leading segment of `bs`. -/
def isPrefixB : List Char → List Char → Bool
  | [], _ => true
  | _ :: _, [] => false
  | a :: as, b :: bs => a == b && isPrefixB as bs

/-- `isInfixB needle hay = true` iff `needle` occurs contiguously in `hay`. -/
def isInfixB (needle hay : List Char) : Bool :=
  isPrefixB needle hay ||
    match hay with
    | [] => false
    | _ :: t => isInfixB needle t

/-- Model of JavaScript `hay.includes(needle)`. -/
def strIncludes (hay needle : String) : Bool := isInfixB needle.data hay.data

/-- A roster entry: `Student` as the resolver sees it (`id`, `firstName`,
`lastName` are the fields read by `processAttendanceCommand`). -/
structure Student where
  id : String
  firstName : String
  lastName : String
deriving DecidableEq

/-- The untrusted arguments of the provider's tool invocation
(`call.args`).  Either field may be absent in a malformed response. -/
structure FunctionCallArgs where
  status : Option String
  student_names : Option (List String)
deriving DecidableEq

/-- The provider response as read by the resolver: only
`response.functionCalls` is inspected (`response.functionCalls?.[0]`); the
field itself may be absent. -/
structure ProviderResponse where
  functionCalls : Option (List FunctionCallArgs)
deriving DecidableEq

/-- The resolver's non-sentinel result `{ status, studentIds }`. -/
structure ResolvedIntent where
  status : String
  studentIds : List String
deriving DecidableEq

/-- The matching predicate of the name-resolution loop, from the source:

    const fullName = `${s.firstName} ${s.lastName}`.toLowerCase();
    const lastNameFirst = `${s.lastName} ${s.firstName}`.toLowerCase();
    return fullName.includes(name) || lastNameFirst.includes(name) ||
      s.firstName.toLowerCase().includes(name) ||
      s.lastName.toLowerCase().includes(name);

`name` is the already lower-cased candidate. -/
def matchesStudent (name : String) (s : Student) : Bool :=
  strIncludes (lowerStr (s.firstName ++ " " ++ s.lastName)) name ||
    strIncludes (lowerStr (s.lastName ++ " " ++ s.firstName)) name ||
    strIncludes (lowerStr s.firstName) name ||
    strIncludes (lowerStr s.lastName) name

/-- `students.find(...)` of the source: the first roster entry matching the
candidate, if any. -/
def resolveCandidate (students : List Student) (name : String) : Option Student :=
  students.find? (matchesStudent name)

/-- The accumulation loop of the source:

    for (const name of lowerCaseNames) {
      const foundStudent = students.find(...);
      if (foundStudent && !studentIds.includes(foundStudent.id)) {
        studentIds.push(foundStudent.id);
      }
    }

`acc` is the mutable `studentIds` array. -/
def resolveLoop (students : List Student) : List String → List String → List String
  | [], acc => acc
  | name :: rest, acc =>
    match resolveCandidate students name with
    | some s =>
      if s.id ∈ acc then resolveLoop students rest acc
      else resolveLoop students rest (acc ++ [s.id])
    | none => resolveLoop students rest acc

/-- The logic of `processAttendanceCommand` from the provider response on:
tool-call extraction (`response.functionCalls?.[0]`), the falsy-argument
guard (`!args.status || !args.student_names` — a missing or empty-string
status and a missing name array are falsy; an empty array is not),
lower-casing of candidates, the "ALL" short-circuit and the matching loop.
`none` models the `null` ("no actionable intent") sentinel. -/
def processAttendanceCommand (response : ProviderResponse)
    (students : List Student) : Option ResolvedIntent :=
  match response.functionCalls.bind List.head? with
  | none => none
  | some call =>
    match call.status, call.student_names with
    | none, _ => none
    | some _, none => none
    | some st, some names =>
      if st = "" then none
      else
        let lowerCaseNames := names.map lowerStr
        if lowerCaseNames.contains "all" then
          some ⟨st, students.map (fun s => s.id)⟩
        else
          some ⟨st, resolveLoop students lowerCaseNames []⟩

/-- Fallback user message of `handleGeminiError`. -/
def defaultAiFailureMessage : String :=
  "An AI feature failed. Please try again. If the problem persists, check your connection or the server logs."

/-- User message for an invalid server-side API key. -/
def invalidKeyMessage : String :=
  "AI Error: The API key configured on the server is invalid."

/-- User message for an exhausted quota. -/
def quotaMessage : String :=
  "AI Error: API quota exceeded. Please check your billing details."

/-- User message for a failure to reach the proxy. -/
def proxyCommMessage : String :=
  "AI Communication Error: Could not connect to the secure AI proxy. Please check your network connection."

/-- The error classifier `handleGeminiError`, modelled on the raw error's
optional message string (`none` when `error.message` is not a string) and
returning the user-facing message it wraps in an `Error`. -/
def handleGeminiError (message : Option String) : String :=
  match message with
  | none => defaultAiFailureMessage
  | some msg =>
    let lowerMessage := lowerStr msg
    if strIncludes lowerMessage "api key not valid" ||
        strIncludes lowerMessage "api_key_invalid" then
      invalidKeyMessage
    else if strIncludes lowerMessage "quota" then
      quotaMessage
    else if strIncludes lowerMessage "failed to call the ai service" then
      proxyCommMessage
    else
      "AI Error: " ++ msg

/-- The classifier's rules as the spec's ordered rule table: a pattern
looked for in the lower-cased message, and the user message it selects. -/
def geminiErrorRules : List (String × String) :=
  [("api key not valid", invalidKeyMessage),
   ("api_key_invalid", invalidKeyMessage),
   ("quota", quotaMessage),
   ("failed to call the ai service", proxyCommMessage)]

/-- The classifier as the spec's ordered rule scan: the first rule whose
pattern occurs in the lower-cased message wins; with no message at all the
fixed fallback message is produced; an unrecognized message is wrapped
verbatim. -/
def geminiErrorSpec (message : Option String) : String :=
  match message with
  | none => defaultAiFailureMessage
  | some msg =>
    match geminiErrorRules.find? (fun rule => strIncludes (lowerStr msg) rule.1) with
    | some rule => rule.2
    | none => "AI Error: " ++ msg

/-- Outcome of the proxy route: the three response shapes of
`/api/gemini`. -/
inductive HandlerResult (α : Type) where
  | methodNotAllowed (error : String)
  | ok (body : α)
  | serverError (error : String) (details : String)
deriving DecidableEq

/-- The `error` field of the proxy's 500 response. -/
def proxyErrorMessage : String :=
  "An error occurred while communicating with the AI service."

/-- The message of the exception thrown when the credential is absent. -/
def missingKeyMessage : String :=
  "API_KEY is not set in environment variables."

/-- The proxy route of `/api/gemini`: reject non-POST, throw (caught below
as a 500) when the server-held credential is absent, otherwise relay the
provider call's outcome — 200 passthrough on success, 500 with
`{error, details}` on failure.  `generate` stands for the awaited provider
call on the request body. -/
def handler {α : Type} (method : String) (apiKey : Option String)
    (generate : Except String α) : HandlerResult α :=
  if method ≠ "POST" then .methodNotAllowed "Method not allowed"
  else
    match apiKey with
    | none => .serverError proxyErrorMessage missingKeyMessage
    | some _ =>
      match generate with
      | .error e => .serverError proxyErrorMessage e
      | .ok r => .ok r

/-- The matching clause as the spec words it (§4.3 step 5c): the (already
lower-cased) candidate is a substring of the lower-cased "first last", or
of the lower-cased "last first", or of the lower-cased first name alone,
or of the lower-cased last name alone. -/
def specMatches (cand : String) (s : Student) : Prop :=
  cand.data <:+: (lowerStr (s.firstName ++ " " ++ s.lastName)).data ∨
    cand.data <:+: (lowerStr (s.lastName ++ " " ++ s.firstName)).data ∨
    cand.data <:+: (lowerStr s.firstName).data ∨
    cand.data <:+: (lowerStr s.lastName).data

/-- The sample roster of the spec's end-to-end scenarios. -/
def anaGomez : Student := ⟨"s3", "Ana", "Gomez"⟩

/-- Roster [{Juan, Dela Cruz}, {Maria, Santos}, {Ana, Gomez}]. -/
def sampleRoster : List Student :=
  [⟨"s1", "Juan", "Dela Cruz"⟩, ⟨"s2", "Maria", "Santos"⟩, anaGomez]

theorem isPrefixB_iff (as bs : List Char) : isPrefixB as bs = true ↔ as <+: bs := by
  induction as generalizing bs with
  | nil => simp [isPrefixB, List.nil_prefix]
  | cons a as ih =>
    cases bs with
    | nil => simp [isPrefixB, List.prefix_nil]
    | cons b bs =>
      simp [isPrefixB, Bool.and_eq_true, beq_iff_eq, ih, List.cons_prefix_cons]

theorem isInfixB_iff (needle hay : List Char) :
    isInfixB needle hay = true ↔ needle <:+: hay := by
  induction hay with
  | nil =>
    simp [isInfixB, isPrefixB_iff, List.infix_nil, List.prefix_nil]
  | cons b t ih =>
    rw [isInfixB]
    simp [Bool.or_eq_true, isPrefixB_iff, ih, List.infix_cons_iff]

theorem strIncludes_iff (hay needle : String) :
    strIncludes hay needle = true ↔ needle.data <:+: hay.data :=
  isInfixB_iff needle.data hay.data

theorem matchesStudent_iff (cand : String) (s : Student) :
    matchesStudent cand s = true ↔ specMatches cand s := by
  simp only [matchesStudent, specMatches, Bool.or_eq_true, strIncludes_iff]
  tauto

theorem matchesStudent_false_iff (cand : String) (s : Student) :
    matchesStudent cand s = false ↔ ¬ specMatches cand s := by
  rw [← matchesStudent_iff]
  cases matchesStudent cand s <;> simp

theorem mem_resolveLoop_of_mem_acc (students : List Student) (names : List String) :
    ∀ acc i, i ∈ acc → i ∈ resolveLoop students names acc := by
  induction names with
  | nil => intro acc i hi; simpa [resolveLoop] using hi
  | cons n rest ih =>
    intro acc i hi
    rw [resolveLoop]
    cases hf : resolveCandidate students n with
    | none => exact ih acc i hi
    | some s =>
      by_cases hmem : s.id ∈ acc
      · simp only [if_pos hmem]
        exact ih acc i hi
      · simp only [if_neg hmem]
        exact ih (acc ++ [s.id]) i (List.mem_append_left _ hi)

theorem mem_resolveLoop_of_found (students : List Student) (names : List String)
    (n : String) (s : Student) (hn : n ∈ names)
    (hf : resolveCandidate students n = some s) :
    ∀ acc, s.id ∈ resolveLoop students names acc := by
  induction names with
  | nil => cases hn
  | cons m rest ih =>
    intro acc
    rw [resolveLoop]
    rcases List.mem_cons.mp hn with heq | hmem
    · subst heq
      rw [hf]
      by_cases h2 : s.id ∈ acc
      · simp only [if_pos h2]
        exact mem_resolveLoop_of_mem_acc students rest acc s.id h2
      · simp only [if_neg h2]
        exact mem_resolveLoop_of_mem_acc students rest (acc ++ [s.id]) s.id (by simp)
    · cases hf2 : resolveCandidate students m with
      | none => exact ih hmem acc
      | some s2 =>
        by_cases h3 : s2.id ∈ acc
        · simp only [if_pos h3]
          exact ih hmem acc
        · simp only [if_neg h3]
          exact ih hmem (acc ++ [s2.id])

theorem resolveLoop_nodup (students : List Student) (names : List String) :
    ∀ acc, acc.Nodup → (resolveLoop students names acc).Nodup := by
  induction names with
  | nil => intro acc h; simpa [resolveLoop] using h
  | cons m rest ih =>
    intro acc h
    rw [resolveLoop]
    cases hf : resolveCandidate students m with
    | none => exact ih acc h
    | some s =>
      by_cases h2 : s.id ∈ acc
      · simp only [if_pos h2]
        exact ih acc h
      · simp only [if_neg h2]
        refine ih (acc ++ [s.id]) ?_
        simp [List.nodup_append, h, h2]

theorem mem_resolveLoop_source (students : List Student) (names : List String) :
    ∀ acc i, i ∈ resolveLoop students names acc →
      i ∈ acc ∨ ∃ n ∈ names, ∃ s, resolveCandidate students n = some s ∧ s.id = i := by
  induction names with
  | nil => intro acc i h; left; simpa [resolveLoop] using h
  | cons m rest ih =>
    intro acc i h
    rw [resolveLoop] at h
    split at h
    next s hf =>
      by_cases h2 : s.id ∈ acc
      · rw [if_pos h2] at h
        rcases ih acc i h with h1 | ⟨n, hn, s', hfs, hid⟩
        · exact Or.inl h1
        · exact Or.inr ⟨n, List.mem_cons_of_mem _ hn, s', hfs, hid⟩
      · rw [if_neg h2] at h
        rcases ih (acc ++ [s.id]) i h with h1 | ⟨n, hn, s', hfs, hid⟩
        · rcases List.mem_append.mp h1 with ha | hb
          · exact Or.inl ha
          · have hbi : i = s.id := by simpa using hb
            exact Or.inr ⟨m, List.mem_cons_self _ _, s, hf, hbi.symm⟩
        · exact Or.inr ⟨n, List.mem_cons_of_mem _ hn, s', hfs, hid⟩
    next hf =>
      rcases ih acc i h with h1 | ⟨n, hn, s, hfs, hid⟩
      · exact Or.inl h1
      · exact Or.inr ⟨n, List.mem_cons_of_mem _ hn, s, hfs, hid⟩

theorem strIncludes_empty (hay : String) : strIncludes hay "" = true := by
  have hd : ("" : String).data = [] := rfl
  rw [strIncludes_iff, hd]
  exact List.nil_infix

theorem process_valid_args (students : List Student) (st : String) (names : List String)
    (rest : List FunctionCallArgs) (hst : st ≠ "") :
    processAttendanceCommand ⟨some (⟨some st, some names⟩ :: rest)⟩ students =
      if (names.map lowerStr).contains "all" then
        some ⟨st, students.map (fun s => s.id)⟩
      else some ⟨st, resolveLoop students (names.map lowerStr) []⟩ := by
  simp [processAttendanceCommand, hst]

/-- C1: for every roster and every tool invocation whose `student_names`
contains an entry equal to "ALL" in any letter-casing (alongside arbitrary
other names) and whose status is non-falsy, `processAttendanceCommand`
returns every roster identifier with the given status, in roster order;
since roster identifiers are distinct, each appears exactly once. -/
theorem all_sentinel_returns_full_roster (students : List Student) (st : String)
    (names : List String) (rest : List FunctionCallArgs) (hst : st ≠ "")
    (hall : ∃ n ∈ names, lowerStr n = "all")
    (hids : (students.map (fun t => t.id)).Nodup) :
    processAttendanceCommand ⟨some (⟨some st, some names⟩ :: rest)⟩ students =
      some ⟨st, students.map (fun t => t.id)⟩ ∧
    ∀ s ∈ students, (students.map (fun t => t.id)).count s.id = 1 := by
  obtain ⟨n, hn, hlow⟩ := hall
  have hmem : "all" ∈ names.map lowerStr := List.mem_map.mpr ⟨n, hn, hlow⟩
  have hcontains : ((names.map lowerStr).contains "all") = true := List.elem_iff.mpr hmem
  constructor
  · rw [process_valid_args students st names rest hst, if_pos hcontains]
  · intro s hs
    exact List.count_eq_one_of_mem hids (List.mem_map.mpr ⟨s, hs, rfl⟩)

theorem all_sentinel_returns_full_roster_witness :
    processAttendanceCommand ⟨some [⟨some "present", some ["Maria", "aLl"]⟩]⟩ sampleRoster =
      some ⟨"present", sampleRoster.map (fun t => t.id)⟩ ∧
    ∀ s ∈ sampleRoster, (sampleRoster.map (fun t => t.id)).count s.id = 1 :=
  all_sentinel_returns_full_roster sampleRoster "present" ["Maria", "aLl"] [] (by decide)
    ⟨"aLl", by decide, by decide⟩ (by decide)

/-- C2: whatever provider response the resolver accepts, the identifier
list it returns has no duplicates — the matching path deduplicates
explicitly, and the "ALL" path returns the roster's identifiers, distinct
by the roster invariant. -/
theorem resolved_intent_ids_nodup (students : List Student)
    (response : ProviderResponse) (r : ResolvedIntent)
    (hids : (students.map (fun t => t.id)).Nodup)
    (h : processAttendanceCommand response students = some r) :
    r.studentIds.Nodup := by
  obtain ⟨fcs⟩ := response
  simp only [processAttendanceCommand] at h
  split at h
  · exact Option.noConfusion h
  · split at h
    · exact Option.noConfusion h
    · exact Option.noConfusion h
    · split at h
      · exact Option.noConfusion h
      · split at h
        · obtain rfl := Option.some.inj h
          exact hids
        · obtain rfl := Option.some.inj h
          exact resolveLoop_nodup students _ [] List.nodup_nil

theorem resolved_intent_ids_nodup_witness :
    processAttendanceCommand ⟨some [⟨some "late", some ["Ana", "Ana Gomez"]⟩]⟩ sampleRoster =
      some ⟨"late", ["s3"]⟩ ∧
    (ResolvedIntent.mk "late" ["s3"]).studentIds.Nodup :=
  ⟨by decide,
    resolved_intent_ids_nodup sampleRoster ⟨some [⟨some "late", some ["Ana", "Ana Gomez"]⟩]⟩
      ⟨"late", ["s3"]⟩ (by decide) (by decide)⟩

/-- C3: per-candidate name resolution is exactly "first roster entry, in
roster order, satisfying the spec's four substring clauses on the
lower-cased candidate"; in particular the candidate "ana" (lower-cased)
matches the roster entry {first: "Ana", last: "Gomez"}. -/
theorem candidate_resolution_first_match :
    (∀ (students : List Student) (cand : String) (s : Student),
      resolveCandidate students cand = some s ↔
        specMatches cand s ∧
          ∃ pre post, students = pre ++ s :: post ∧ ∀ t ∈ pre, ¬ specMatches cand t) ∧
    specMatches (lowerStr "ana") anaGomez ∧
    resolveCandidate [anaGomez] (lowerStr "ana") = some anaGomez := by
  refine ⟨fun students cand s => ?_, ?_, by decide⟩
  · simp only [resolveCandidate, List.find?_eq_some, matchesStudent_iff, Bool.not_eq_true',
      matchesStudent_false_iff]
  · exact (matchesStudent_iff _ _).mp (by decide)

/-- C4: with valid arguments and no "ALL" sentinel, the resolver never
fails: it returns a result carrying the given status; every returned
identifier comes from some candidate's first match, and if no candidate
matches, the identifier list is empty. -/
theorem unmatched_candidates_dropped (students : List Student) (st : String)
    (names : List String) (rest : List FunctionCallArgs) (hst : st ≠ "")
    (hnall : ∀ n ∈ names, lowerStr n ≠ "all") :
    ∃ r, processAttendanceCommand ⟨some (⟨some st, some names⟩ :: rest)⟩ students = some r ∧
      r.status = st ∧
      (∀ i ∈ r.studentIds,
        ∃ n ∈ names, ∃ s, resolveCandidate students (lowerStr n) = some s ∧ s.id = i) ∧
      ((∀ n ∈ names, resolveCandidate students (lowerStr n) = none) → r.studentIds = []) := by
  have hnotmem : "all" ∉ names.map lowerStr := by
    intro hm
    rcases List.mem_map.mp hm with ⟨n, hn, heq⟩
    exact hnall n hn heq
  have hc : ¬ ((names.map lowerStr).contains "all") = true := fun hcc =>
    hnotmem (List.elem_iff.mp hcc)
  refine ⟨⟨st, resolveLoop students (names.map lowerStr) []⟩, ?_, rfl, ?_, ?_⟩
  · rw [process_valid_args students st names rest hst, if_neg hc]
  · intro i hi
    rcases mem_resolveLoop_source students (names.map lowerStr) [] i hi with h1 | h2
    · simp at h1
    · rcases h2 with ⟨n', hn', s, hfs, hid⟩
      rcases List.mem_map.mp hn' with ⟨n, hn, rfl⟩
      exact ⟨n, hn, s, hfs, hid⟩
  · intro hnone
    cases hres : resolveLoop students (names.map lowerStr) [] with
    | nil => rfl
    | cons i t =>
      exfalso
      have hmem : i ∈ resolveLoop students (names.map lowerStr) [] := by
        rw [hres]
        exact List.mem_cons_self i t
      rcases mem_resolveLoop_source students (names.map lowerStr) [] i hmem with h1 | h2
      · simp at h1
      · rcases h2 with ⟨n', hn', s, hfs, _⟩
        rcases List.mem_map.mp hn' with ⟨n, hn, rfl⟩
        rw [hnone n hn] at hfs
        exact Option.noConfusion hfs

theorem unmatched_candidates_dropped_witness :
    ∃ r, processAttendanceCommand ⟨some [⟨some "absent", some ["Carlos Reyes"]⟩]⟩ sampleRoster =
      some r ∧ r.status = "absent" ∧ r.studentIds = [] := by
  obtain ⟨r, h1, h2, _, h4⟩ :=
    unmatched_candidates_dropped sampleRoster "absent" ["Carlos Reyes"] [] (by decide) (by decide)
  exact ⟨r, h1, h2, h4 (by decide)⟩

/-- C5: a provider response with no tool invocation (missing or empty
`functionCalls`), or an invocation missing `status` or missing
`student_names`, makes the resolver return the "no actionable intent"
sentinel rather than raise an error. -/
theorem missing_call_or_args_sentinel (students : List Student) :
    processAttendanceCommand ⟨none⟩ students = none ∧
    processAttendanceCommand ⟨some []⟩ students = none ∧
    (∀ (ns : Option (List String)) (rest : List FunctionCallArgs),
      processAttendanceCommand ⟨some (⟨none, ns⟩ :: rest)⟩ students = none) ∧
    (∀ (st : Option String) (rest : List FunctionCallArgs),
      processAttendanceCommand ⟨some (⟨st, none⟩ :: rest)⟩ students = none) := by
  refine ⟨rfl, rfl, fun ns rest => rfl, fun st rest => ?_⟩
  cases st <;> rfl

/-- C6 counterexample: the claim orders the quota rule before the
credential rule ("quota-exceeded message whenever the message contains
'quota'"), but on a message containing both patterns the classifier
produces the credential message, not the quota message. -/
theorem quota_after_key_check_counterexample :
    strIncludes (lowerStr "quota API_KEY_INVALID") "quota" = true ∧
    handleGeminiError (some "quota API_KEY_INVALID") = invalidKeyMessage ∧
    invalidKeyMessage ≠ quotaMessage := by
  exact ⟨by decide, by decide, by decide⟩

/-- C6 (amended): the classifier equals the ordered rule scan — the
credential patterns ("api key not valid", "api_key_invalid") are checked
first, then "quota", then "failed to call the ai service"; any other
message is wrapped verbatim, and with no message at all the fixed fallback
message is produced. -/
theorem classifier_matches_ordered_rule_table (message : Option String) :
    handleGeminiError message = geminiErrorSpec message := by
  cases message with
  | none => rfl
  | some msg =>
    simp only [handleGeminiError, geminiErrorSpec, geminiErrorRules, List.find?]
    cases h1 : strIncludes (lowerStr msg) "api key not valid" <;>
      cases h2 : strIncludes (lowerStr msg) "api_key_invalid" <;>
        cases h3 : strIncludes (lowerStr msg) "quota" <;>
          cases h4 : strIncludes (lowerStr msg) "failed to call the ai service" <;>
            simp [h1, h2, h3, h4]

/-- C7: the proxy route answers 405 to any non-POST method; with the
server credential absent, or with the provider call failing, it answers
500 with an `{error, details}` body; on success it answers 200 with the
provider response passed through unmodified. -/
theorem proxy_handler_contract {α : Type} (method : String) (apiKey : Option String)
    (generate : Except String α) :
    (method ≠ "POST" →
      handler method apiKey generate = HandlerResult.methodNotAllowed "Method not allowed") ∧
    handler "POST" none generate =
      HandlerResult.serverError proxyErrorMessage missingKeyMessage ∧
    (∀ (k e : String), handler "POST" (some k) (Except.error e : Except String α) =
      HandlerResult.serverError proxyErrorMessage e) ∧
    (∀ (k : String) (r : α), handler "POST" (some k) (Except.ok r : Except String α) =
      HandlerResult.ok r) := by
  refine ⟨fun hm => ?_, rfl, fun k e => rfl, fun k r => rfl⟩
  simp [handler, hm]

/-- C8: the resolver copies the provider's status into the result
verbatim, with no validation against {present, absent, late}. -/
theorem status_passthrough_verbatim (students : List Student) (st : String)
    (names : List String) (rest : List FunctionCallArgs) (hst : st ≠ "") :
    ∃ r, processAttendanceCommand ⟨some (⟨some st, some names⟩ :: rest)⟩ students = some r ∧
      r.status = st := by
  rw [process_valid_args students st names rest hst]
  by_cases hc : ((names.map lowerStr).contains "all") = true
  · exact ⟨_, by rw [if_pos hc], rfl⟩
  · exact ⟨_, by rw [if_neg hc], rfl⟩

theorem status_passthrough_verbatim_witness :
    ("banana" ∉ (["present", "absent", "late"] : List String)) ∧
    ∃ r, processAttendanceCommand ⟨some [⟨some "banana", some ["Ana"]⟩]⟩ sampleRoster = some r ∧
      r.status = "banana" :=
  ⟨by decide, status_passthrough_verbatim sampleRoster "banana" ["Ana"] [] (by decide)⟩

/-- C9: the empty string is a substring of every name, so a tool
invocation whose `student_names` contains `""` puts the first roster
entry's identifier in the result (on the matching path it is the first
entry's first match; on the "ALL" path it is present among all
identifiers). -/
theorem empty_candidate_adds_first_roster_id (s0 : Student) (tl : List Student)
    (st : String) (names : List String) (rest : List FunctionCallArgs)
    (hst : st ≠ "") (hmem : "" ∈ names) :
    ∃ r, processAttendanceCommand ⟨some (⟨some st, some names⟩ :: rest)⟩ (s0 :: tl) = some r ∧
      s0.id ∈ r.studentIds := by
  rw [process_valid_args (s0 :: tl) st names rest hst]
  by_cases hall : ((names.map lowerStr).contains "all") = true
  · rw [if_pos hall]
    exact ⟨_, rfl, by simp⟩
  · rw [if_neg hall]
    refine ⟨_, rfl, ?_⟩
    have hm : matchesStudent "" s0 = true := by
      simp [matchesStudent, strIncludes_empty]
    have hf : resolveCandidate (s0 :: tl) "" = some s0 := by
      simp [resolveCandidate, List.find?_cons, hm]
    have hlow : ("" : String) ∈ names.map lowerStr := List.mem_map.mpr ⟨"", hmem, rfl⟩
    exact mem_resolveLoop_of_found (s0 :: tl) (names.map lowerStr) "" s0 hlow hf []

theorem empty_candidate_adds_first_roster_id_witness :
    ∃ r, processAttendanceCommand ⟨some [⟨some "present", some [""]⟩]⟩
        (Student.mk "s1" "Juan" "Dela Cruz" :: [Student.mk "s2" "Maria" "Santos", anaGomez]) =
        some r ∧
      (Student.mk "s1" "Juan" "Dela Cruz").id ∈ r.studentIds :=
  empty_candidate_adds_first_roster_id (Student.mk "s1" "Juan" "Dela Cruz")
    [Student.mk "s2" "Maria" "Santos", anaGomez] "present" [""] [] (by decide) (by decide)

/-- C10: the falsy-argument guard is asymmetric — an empty-string status
is treated as missing and yields the sentinel, while a present but empty
`student_names` array is accepted and yields a result with the given
status and no identifiers. -/
theorem falsy_validation_asymmetry (students : List Student) (st : String)
    (ns : Option (List String)) (rest rest2 : List FunctionCallArgs) (hst : st ≠ "") :
    processAttendanceCommand ⟨some (⟨some "", ns⟩ :: rest)⟩ students = none ∧
    processAttendanceCommand ⟨some (⟨some st, some []⟩ :: rest2)⟩ students = some ⟨st, []⟩ := by
  constructor
  · cases ns with
    | none => rfl
    | some l => simp [processAttendanceCommand]
  · rw [process_valid_args students st [] rest2 hst]
    rfl

theorem falsy_validation_asymmetry_witness :
    processAttendanceCommand ⟨some [⟨some "", some ["Ana"]⟩]⟩ sampleRoster = none ∧
    processAttendanceCommand ⟨some [⟨some "present", some []⟩]⟩ sampleRoster =
      some ⟨"present", []⟩ :=
  falsy_validation_asymmetry sampleRoster "present" (some ["Ana"]) [] [] (by decide)
